import Mathlib

/-!
Verification of the session-analyzer script (`scripts/analyze-session.py`).

The script is embedded shallowly:

* An instant (a parsed timestamp) is a rational number of seconds on the
  POSIX timeline, in the wall-clock frame the stored `datetime` carries;
  differences of instants are `total_seconds()` values and `hourOf` is the
  `datetime.hour` field.
* A raw log line is abstracted by the outcome of the per-line parsing steps
  (`json.loads`, the `'timestamp' in entry` test, `parse_timestamp`): the
  constructors of `Entry` below.  `parse_timestamp` raising `ValueError`
  on a malformed timestamp string is the `Entry.badTs` case; only
  `json.JSONDecodeError` is caught by the reading loop, so `ValueError`
  propagates, which the embedding renders as `Except.error`.
* Python `float` arithmetic is modelled by exact rational arithmetic.
* Python's `sorted` is a stable sort; `List.insertionSort` is stable, so it
  models `sorted` at the two call sites (lines 112 and 113 of the script).
-/

/-- Outcome of the per-line parsing pipeline of `analyze_session_file`
(lines 47–61 of the script) for one raw log line. -/
inductive Entry
  /-- `json.loads` raises `json.JSONDecodeError` (caught: the line is skipped). -/
  | badJson
  /-- The line is valid JSON but has no `timestamp` field: the `if` guard fails. -/
  | noTs
  /-- The line has a `timestamp` field whose string `parse_timestamp` rejects:
  `datetime.fromisoformat` raises `ValueError`, which is not caught. -/
  | badTs
  /-- The line has a `timestamp` field parsing to the instant `t`. -/
  | ts (t : ℚ)
deriving DecidableEq, Repr

/-- The test `start_dt and ts < start_dt` of line 53. -/
def beforeStart (sdt : Option ℚ) (t : ℚ) : Bool :=
  match sdt with
  | some s => decide (t < s)
  | none => false

/-- The test `end_dt and ts > end_dt` of line 55. -/
def afterEnd (edt : Option ℚ) (t : ℚ) : Bool :=
  match edt with
  | some e => decide (e < t)
  | none => false

/-- The reading loop of `analyze_session_file` (lines 45–61): accumulates the
filtered instants in order together with `total_events`.  `Except.error ()` is
the uncaught `ValueError` escaping the loop. -/
def processLines (sdt edt : Option ℚ) : List Entry → Except Unit (List ℚ × ℕ)
  | [] => Except.ok ([], 0)
  | Entry.badJson :: rest => processLines sdt edt rest
  | Entry.noTs :: rest => processLines sdt edt rest
  | Entry.badTs :: _ => Except.error ()
  | Entry.ts t :: rest =>
      if beforeStart sdt t then processLines sdt edt rest
      else if afterEnd edt t then processLines sdt edt rest
      else (processLines sdt edt rest).map (fun p => (t :: p.1, p.2 + 1))

/-- `calculate_gaps` (lines 26–32): gaps between consecutive timestamps in
fractional minutes. -/
def calculate_gaps : List ℚ → List ℚ
  | [] => []
  | [_] => []
  | a :: b :: rest => (b - a) / 60 :: calculate_gaps (b :: rest)

/-- The hour-of-day of an instant, as Python's `datetime.hour` reads it from
the stored value: seconds within the day, divided into hours. -/
def hourOf (t : ℚ) : ℕ :=
  ((⌊t⌋ % 86400).toNat) / 3600

/-- One step of the accumulation `hourly_activity[hour] =
hourly_activity.get(hour, 0) + 1` (line 87) on an insertion-ordered
association list: an existing key is bumped in place, a new key is appended. -/
def bump (h : ℕ) : List (ℕ × ℕ) → List (ℕ × ℕ)
  | [] => [(h, 1)]
  | (k, v) :: rest => if k = h then (k, v + 1) :: rest else (k, v) :: bump h rest

/-- The insertion-ordered `hourly_activity` dict built by lines 84–87. -/
def hourlyActivity (timestamps : List ℚ) : List (ℕ × ℕ) :=
  timestamps.foldl (fun acc t => bump (hourOf t) acc) []

/-- Comparison used by `dict(sorted(hourly_activity.items()))` (line 112):
items ordered by hour key (keys are distinct, so the tuple order Python uses
coincides with the key order). -/
def byHour (a b : ℕ × ℕ) : Prop := a.1 ≤ b.1

/-- Comparison used by `sorted(hourly_activity.items(), key=lambda x: x[1],
reverse=True)` (line 113): descending count; the sort is stable. -/
def byCountDesc (a b : ℕ × ℕ) : Prop := b.2 ≤ a.2

instance : DecidableRel byHour := fun a b => inferInstanceAs (Decidable (a.1 ≤ b.1))

instance : DecidableRel byCountDesc := fun a b => inferInstanceAs (Decidable (b.2 ≤ a.2))

instance : IsTotal (ℕ × ℕ) byHour := ⟨fun a b => Nat.le_total a.1 b.1⟩

instance : IsTrans (ℕ × ℕ) byHour := ⟨fun _ _ _ h h2 => Nat.le_trans h h2⟩

instance : IsTotal (ℕ × ℕ) byCountDesc := ⟨fun a b => Nat.le_total b.2 a.2⟩

instance : IsTrans (ℕ × ℕ) byCountDesc := ⟨fun _ _ _ h h2 => Nat.le_trans h2 h⟩

/-- `max(gaps)` for a nonempty list, `0` when the guard `if gaps` fails
(line 110). -/
def listMax : List ℚ → ℚ
  | [] => 0
  | g :: rest => rest.foldl max g

/-- `statistics.mean` of a list of rationals. -/
def listMean (l : List ℚ) : ℚ := l.sum / l.length

/-- The dictionary returned by `analyze_session_file` (lines 94–114), with the
`gap_analysis` sub-dictionary flattened into fields. -/
structure Metrics where
  session_start : ℚ
  session_end : ℚ
  total_duration_hours : ℚ
  total_events : ℕ
  events_per_hour : ℚ
  events_per_minute : ℚ
  active_events_per_minute : ℚ
  total_active_time_hours : ℚ
  total_idle_time_hours : ℚ
  activity_percentage : ℚ
  short_gaps : ℕ
  moderate_gaps : ℕ
  long_gaps : ℕ
  avg_moderate_gap : ℚ
  longest_gap : ℚ
  hourly_activity : List (ℕ × ℕ)
  peak_hours : List (ℕ × ℕ)
deriving DecidableEq, Repr

/-- The metric computation of `analyze_session_file` (lines 66–114) on the
filtered timestamp list and the `total_events` counter.  Only reached with a
nonempty list (line 63 guards); `headI`/`getLastI` are `timestamps[0]` and
`timestamps[-1]`. -/
def analyze (timestamps : List ℚ) (total_events : ℕ) : Metrics :=
  let session_start := timestamps.headI
  let session_end := timestamps.getLastI
  let total_duration := session_end - session_start
  let gaps := calculate_gaps timestamps
  let short_gaps := gaps.filter (fun g => decide (g < 5))
  let moderate_gaps := gaps.filter (fun g => decide (5 ≤ g ∧ g < 30))
  let long_gaps := gaps.filter (fun g => decide (30 ≤ g))
  let total_idle_time := long_gaps.sum
  let total_active_time := total_duration / 60 - total_idle_time
  let hourly := hourlyActivity timestamps
  { session_start := session_start
    session_end := session_end
    total_duration_hours := total_duration / 3600
    total_events := total_events
    events_per_hour :=
      if total_duration > 0 then (total_events : ℚ) / (total_duration / 3600) else 0
    events_per_minute :=
      if total_duration > 0 then (total_events : ℚ) / (total_duration / 60) else 0
    active_events_per_minute :=
      if total_active_time > 0 then (total_events : ℚ) / total_active_time else 0
    total_active_time_hours := total_active_time / 60
    total_idle_time_hours := total_idle_time / 60
    activity_percentage :=
      if total_duration > 0 then total_active_time / (total_duration / 60) * 100 else 0
    short_gaps := short_gaps.length
    moderate_gaps := moderate_gaps.length
    long_gaps := long_gaps.length
    avg_moderate_gap := if moderate_gaps ≠ [] then listMean moderate_gaps else 0
    longest_gap := if gaps ≠ [] then listMax gaps else 0
    hourly_activity := List.insertionSort byHour hourly
    peak_hours := (List.insertionSort byCountDesc hourly).take 3 }

/-- Result of `analyze_session_file` as observed by `main`. -/
inductive AnalysisResult
  /-- An uncaught `ValueError` from `parse_timestamp` aborts the call. -/
  | valueError
  /-- The `{"error": "No valid timestamps found in range"}` return (line 64). -/
  | emptyRange
  /-- The metrics dictionary. -/
  | ok (m : Metrics)
deriving DecidableEq, Repr

/-- `analyze_session_file` (lines 34–114) end to end on the abstracted lines
of the session file. -/
def analyze_session_file (sdt edt : Option ℚ) (lines : List Entry) : AnalysisResult :=
  match processLines sdt edt lines with
  | Except.error _ => AnalysisResult.valueError
  | Except.ok (timestamps, n) =>
      if timestamps.isEmpty then AnalysisResult.emptyRange
      else AnalysisResult.ok (analyze timestamps n)

/-- The exit status `main` (lines 205–232) produces for a given analysis:
`1` when the metrics dictionary carries the `"error"` key (line 225) and when
an exception reaches the top-level handler (line 232), `0` otherwise. -/
def mainExitCode (sdt edt : Option ℚ) (lines : List Entry) : ℕ :=
  match analyze_session_file sdt edt lines with
  | AnalysisResult.valueError => 1
  | AnalysisResult.emptyRange => 1
  | AnalysisResult.ok _ => 0

/-- Outcome of parsing the first or last record of a candidate session file in
`find_session_file` (lines 129–142). -/
inductive RecParse
  /-- `json.loads` raises `json.JSONDecodeError` (caught at line 147). -/
  | decodeErr
  /-- `entry['timestamp']` raises `KeyError` (caught at line 147). -/
  | keyErr
  /-- `parse_timestamp` raises `ValueError` (not caught at line 147). -/
  | badTs
  /-- The record's timestamp parses to the instant `t`. -/
  | ok (t : ℚ)
deriving DecidableEq, Repr

/-- A candidate `*.jsonl` file, abstracted to what `find_session_file` reads
of it: the parse outcome of its first record and of the last complete record
in the trailing chunk. -/
inductive Candidate
  /-- `f.readline().strip()` is empty: the `if first_line` guard fails and the
  loop moves on. -/
  | emptyFirstLine
  /-- First-record and last-record parse outcomes. -/
  | withRecords (fst lst : RecParse)
deriving DecidableEq, Repr

/-- Result of `find_session_file` (lines 116–150). -/
inductive FindResult
  /-- The candidate at the given index is returned (line 146). -/
  | found (i : ℕ)
  /-- The final `FileNotFoundError` (line 150). -/
  | noMatch
  /-- An uncaught `ValueError` from `parse_timestamp` aborts the search. -/
  | valueError
deriving DecidableEq, Repr

/-- The candidate loop of `find_session_file`, with `i` the index of the head
candidate.  `json.JSONDecodeError` and `KeyError` are caught (line 147) and
skip to the next candidate; `ValueError` is not and aborts. -/
def findFrom (start : ℚ) (i : ℕ) : List Candidate → FindResult
  | [] => FindResult.noMatch
  | Candidate.emptyFirstLine :: rest => findFrom start (i + 1) rest
  | Candidate.withRecords f l :: rest =>
      match f with
      | RecParse.decodeErr => findFrom start (i + 1) rest
      | RecParse.keyErr => findFrom start (i + 1) rest
      | RecParse.badTs => FindResult.valueError
      | RecParse.ok ft =>
          match l with
          | RecParse.decodeErr => findFrom start (i + 1) rest
          | RecParse.keyErr => findFrom start (i + 1) rest
          | RecParse.badTs => FindResult.valueError
          | RecParse.ok lt2 =>
              if ft ≤ start ∧ start ≤ lt2 then FindResult.found i
              else findFrom start (i + 1) rest

/-- `find_session_file` (lines 116–150) over the candidate files of the
session directory, in glob order. -/
def find_session_file (start : ℚ) (files : List Candidate) : FindResult :=
  findFrom start 0 files

/-! ### Facts about `calculate_gaps` -/

theorem getLastI_cons_cons (a b : ℚ) (rest : List ℚ) :
    (a :: b :: rest).getLastI = (b :: rest).getLastI := by
  simp [List.getLastI_eq_getLast?, List.getLast?_cons_cons]

theorem calculate_gaps_length : ∀ ts : List ℚ, (calculate_gaps ts).length = ts.length - 1
  | [] => by simp [calculate_gaps]
  | [_] => by simp [calculate_gaps]
  | _ :: b :: rest => by
      have ih := calculate_gaps_length (b :: rest)
      simp [calculate_gaps] at ih ⊢
      omega

theorem calculate_gaps_get :
    ∀ (ts : List ℚ) (i : ℕ) (a b : ℚ), ts[i]? = some a → ts[i + 1]? = some b →
      (calculate_gaps ts)[i]? = some ((b - a) / 60)
  | [], _, _, _ => by simp
  | [_], i, a, b => by
      intro _ h2
      rw [List.getElem?_cons_succ] at h2
      simp at h2
  | x :: y :: rest, 0, a, b => by
      intro h1 h2
      simp at h1 h2
      simp [calculate_gaps, h1, h2]
  | x :: y :: rest, i + 1, a, b => by
      intro h1 h2
      have ih := calculate_gaps_get (y :: rest) i a b (by simpa using h1) (by simpa using h2)
      simpa [calculate_gaps] using ih

theorem calculate_gaps_nonneg :
    ∀ ts : List ℚ, List.Chain' (· ≤ ·) ts → ∀ g ∈ calculate_gaps ts, 0 ≤ g
  | [] => by simp [calculate_gaps]
  | [_] => by simp [calculate_gaps]
  | a :: b :: rest => by
      intro hc g hg
      rw [List.chain'_cons] at hc
      simp only [calculate_gaps, List.mem_cons] at hg
      rcases hg with rfl | hg
      · have : (0 : ℚ) ≤ b - a := by linarith [hc.1]
        positivity
      · exact calculate_gaps_nonneg (b :: rest) hc.2 g hg

theorem calculate_gaps_sum :
    ∀ ts : List ℚ, (calculate_gaps ts).sum = (ts.getLastI - ts.headI) / 60
  | [] => by simp [calculate_gaps, List.getLastI]
  | [a] => by simp [calculate_gaps, List.getLastI]
  | a :: b :: rest => by
      have ih := calculate_gaps_sum (b :: rest)
      rw [getLastI_cons_cons]
      simp only [calculate_gaps, List.sum_cons, ih]
      simp [List.headI]
      ring

/-- C5: `calculate_gaps` returns exactly N−1 gaps, with `gap[i] =
(seq[i+1] − seq[i])` in fractional minutes, each gap non-negative under the
non-decreasing invariant, their sum telescoping to `(last − first)` in
minutes (exactly, in rational arithmetic), and the empty gap list on inputs
of length ≤ 1. -/
theorem gap_calculator_correct (ts : List ℚ) (hmono : List.Chain' (· ≤ ·) ts) :
    (calculate_gaps ts).length = ts.length - 1
    ∧ (∀ (i : ℕ) (a b : ℚ), ts[i]? = some a → ts[i + 1]? = some b →
        (calculate_gaps ts)[i]? = some ((b - a) / 60))
    ∧ (∀ g ∈ calculate_gaps ts, 0 ≤ g)
    ∧ (calculate_gaps ts).sum = (ts.getLastI - ts.headI) / 60
    ∧ (ts.length ≤ 1 → calculate_gaps ts = []) :=
  ⟨calculate_gaps_length ts,
   fun i a b h1 h2 => calculate_gaps_get ts i a b h1 h2,
   calculate_gaps_nonneg ts hmono,
   calculate_gaps_sum ts,
   by
     intro hlen
     match ts, hlen with
     | [], _ => rfl
     | [_], _ => rfl⟩

/-- Witness for C5 at the concrete sequence `[0, 60, 180]` (seconds). -/
theorem gap_calculator_correct_witness :
    (calculate_gaps [(0 : ℚ), 60, 180]).length = [(0 : ℚ), 60, 180].length - 1
    ∧ (∀ (i : ℕ) (a b : ℚ), [(0 : ℚ), 60, 180][i]? = some a →
        [(0 : ℚ), 60, 180][i + 1]? = some b →
        (calculate_gaps [(0 : ℚ), 60, 180])[i]? = some ((b - a) / 60))
    ∧ (∀ g ∈ calculate_gaps [(0 : ℚ), 60, 180], 0 ≤ g)
    ∧ (calculate_gaps [(0 : ℚ), 60, 180]).sum
        = ([(0 : ℚ), 60, 180].getLastI - [(0 : ℚ), 60, 180].headI) / 60
    ∧ ([(0 : ℚ), 60, 180].length ≤ 1 → calculate_gaps [(0 : ℚ), 60, 180] = []) :=
  gap_calculator_correct [(0 : ℚ), 60, 180] (by norm_num)

/-! ### Gap buckets (lines 75–77) -/

theorem bucket_trichotomy (g : ℚ) :
    (g < 5 ∧ ¬(5 ≤ g ∧ g < 30) ∧ ¬30 ≤ g)
    ∨ ((5 ≤ g ∧ g < 30) ∧ ¬g < 5 ∧ ¬30 ≤ g)
    ∨ (30 ≤ g ∧ ¬g < 5 ∧ ¬(5 ≤ g ∧ g < 30)) := by
  rcases lt_or_le g 5 with h1 | h1
  · exact Or.inl ⟨h1, by intro h; linarith [h.1], by intro h; linarith⟩
  · rcases lt_or_le g 30 with h2 | h2
    · exact Or.inr (Or.inl ⟨⟨h1, h2⟩, by intro h; linarith, by intro h; linarith⟩)
    · exact Or.inr (Or.inr ⟨h2, by intro h; linarith, by intro h; linarith [h.2]⟩)

theorem bucket_lengths (l : List ℚ) :
    (l.filter (fun g => decide (g < 5))).length
      + (l.filter (fun g => decide (5 ≤ g ∧ g < 30))).length
      + (l.filter (fun g => decide (30 ≤ g))).length = l.length := by
  induction l with
  | nil => simp
  | cons g rest ih =>
      rcases bucket_trichotomy g with ⟨h1, h2, h3⟩ | ⟨h1, h2, h3⟩ | ⟨h1, h2, h3⟩ <;>
        (simp [List.filter_cons, h1, h2, h3] at ih ⊢) <;> omega

/-- C6: the short/moderate/long buckets partition the gap sequence exactly:
the three counts in the metrics sum to the number of gaps, which is N−1, and
every gap satisfies exactly one of the three bucket conditions (with 5 and 30
as inclusive lower bounds of moderate and long). -/
theorem gap_buckets_partition (ts : List ℚ) (n : ℕ) (_hne : ts ≠ []) :
    (analyze ts n).short_gaps + (analyze ts n).moderate_gaps + (analyze ts n).long_gaps
        = (calculate_gaps ts).length
    ∧ (calculate_gaps ts).length = ts.length - 1
    ∧ ∀ g ∈ calculate_gaps ts,
        (g < 5 ∧ ¬(5 ≤ g ∧ g < 30) ∧ ¬30 ≤ g)
        ∨ ((5 ≤ g ∧ g < 30) ∧ ¬g < 5 ∧ ¬30 ≤ g)
        ∨ (30 ≤ g ∧ ¬g < 5 ∧ ¬(5 ≤ g ∧ g < 30)) := by
  refine ⟨?_, calculate_gaps_length ts, fun g _ => bucket_trichotomy g⟩
  simp only [analyze]
  exact bucket_lengths (calculate_gaps ts)

/-- Witness for C6 at the sequence `[0, 60, 600, 3600]` (seconds), whose gaps
`[1, 9, 50]` minutes hit all three buckets. -/
theorem gap_buckets_partition_witness :
    (analyze [(0 : ℚ), 60, 600, 3600] 4).short_gaps
        + (analyze [(0 : ℚ), 60, 600, 3600] 4).moderate_gaps
        + (analyze [(0 : ℚ), 60, 600, 3600] 4).long_gaps
        = (calculate_gaps [(0 : ℚ), 60, 600, 3600]).length
    ∧ (calculate_gaps [(0 : ℚ), 60, 600, 3600]).length = [(0 : ℚ), 60, 600, 3600].length - 1
    ∧ ∀ g ∈ calculate_gaps [(0 : ℚ), 60, 600, 3600],
        (g < 5 ∧ ¬(5 ≤ g ∧ g < 30) ∧ ¬30 ≤ g)
        ∨ ((5 ≤ g ∧ g < 30) ∧ ¬g < 5 ∧ ¬30 ≤ g)
        ∨ (30 ≤ g ∧ ¬g < 5 ∧ ¬(5 ≤ g ∧ g < 30)) :=
  gap_buckets_partition [(0 : ℚ), 60, 600, 3600] 4 (List.cons_ne_nil _ _)

/-! ### Activity percentage (line 104) -/

/-- Counterexample to C3 as stated: the single-timestamp sequence `[0]` is
nonempty and non-decreasing, its idle time is 0, yet `activity_percentage` is
0, not 100, because line 104 guards the division with
`if total_duration > 0 else 0` and the duration is 0. -/
theorem activity_percentage_counterexample :
    List.Chain' (· ≤ ·) [(0 : ℚ)]
    ∧ (analyze [(0 : ℚ)] 1).total_idle_time_hours = 0
    ∧ (analyze [(0 : ℚ)] 1).activity_percentage ≠ 100 := by
  refine ⟨List.chain'_singleton _, ?_, ?_⟩ <;>
    norm_num [analyze, calculate_gaps, List.getLastI]

/-- C3 amended: for every non-empty non-decreasing filtered timestamp
sequence whose idle time is 0 and whose total duration is positive, the
activity percentage is exactly 100. -/
theorem activity_percentage_100 (ts : List ℚ) (n : ℕ) (_hne : ts ≠ [])
    (_hmono : List.Chain' (· ≤ ·) ts)
    (hidle : (analyze ts n).total_idle_time_hours = 0)
    (hdur : 0 < (analyze ts n).total_duration_hours) :
    (analyze ts n).activity_percentage = 100 := by
  simp only [analyze] at hidle hdur ⊢
  have hS : ((calculate_gaps ts).filter (fun g => decide (30 ≤ g))).sum = 0 := by
    linarith
  have hD : 0 < ts.getLastI - ts.headI := by linarith
  rw [if_pos hD, hS, sub_zero, div_self (by positivity), one_mul]

/-- Witness for C3 (amended) at the sequence `[0, 60]` (seconds): duration 60
seconds, no long gap, activity percentage 100. -/
theorem activity_percentage_100_witness :
    (analyze [(0 : ℚ), 60] 2).activity_percentage = 100 :=
  activity_percentage_100 [(0 : ℚ), 60] 2 (List.cons_ne_nil _ _)
    (by norm_num)
    (by norm_num [analyze, calculate_gaps, List.getLastI, List.filter])
    (by norm_num [analyze, List.getLastI])

/-! ### Empty filtered range (lines 63–64, 221–225) and the time filter -/

theorem processLines_length :
    ∀ (sdt edt : Option ℚ) (lines : List Entry) (ts : List ℚ) (n : ℕ),
      processLines sdt edt lines = Except.ok (ts, n) → n = ts.length
  | sdt, edt, [], ts, n => by
      intro h
      simp [processLines] at h
      obtain ⟨rfl, rfl⟩ := h
      rfl
  | sdt, edt, Entry.badJson :: rest, ts, n => fun h =>
      processLines_length sdt edt rest ts n h
  | sdt, edt, Entry.noTs :: rest, ts, n => fun h =>
      processLines_length sdt edt rest ts n h
  | sdt, edt, Entry.badTs :: rest, ts, n => by
      intro h
      simp [processLines] at h
  | sdt, edt, Entry.ts t :: rest, ts, n => by
      intro h
      rw [processLines] at h
      by_cases h1 : beforeStart sdt t
      · exact processLines_length sdt edt rest ts n (by simpa [h1] using h)
      · by_cases h2 : afterEnd edt t
        · exact processLines_length sdt edt rest ts n (by simpa [h1, h2] using h)
        · simp only [h1, h2, if_false, Bool.false_eq_true] at h
          cases hrec : processLines sdt edt rest with
          | error e => rw [hrec] at h; simp [Except.map] at h
          | ok p =>
              rw [hrec] at h
              simp [Except.map] at h
              have := processLines_length sdt edt rest p.1 p.2 (by rw [hrec])
              rw [← h.1, ← h.2]
              simp [this]

/-- C2: when the filtered timestamp sequence is empty, `analyze_session_file`
returns the error dictionary (not a crash) and `main` exits with status 1;
when it is nonempty, the metrics dictionary is returned with no error. -/
theorem empty_range_reported (sdt edt : Option ℚ) (lines : List Entry)
    (ts : List ℚ) (n : ℕ) (hp : processLines sdt edt lines = Except.ok (ts, n)) :
    (ts = [] → analyze_session_file sdt edt lines = AnalysisResult.emptyRange
        ∧ mainExitCode sdt edt lines = 1)
    ∧ (ts ≠ [] → analyze_session_file sdt edt lines = AnalysisResult.ok (analyze ts n)) := by
  constructor
  · rintro rfl
    simp [analyze_session_file, mainExitCode, hp]
  · intro hne
    simp [analyze_session_file, hp, List.isEmpty_iff, hne]

/-- Witness for C2: the empty branch at a start filter excluding the only
record, and the nonempty branch with no filter. -/
theorem empty_range_reported_witness :
    (analyze_session_file (some 100) none [Entry.ts 0] = AnalysisResult.emptyRange
      ∧ mainExitCode (some 100) none [Entry.ts 0] = 1)
    ∧ analyze_session_file none none [Entry.ts 0] = AnalysisResult.ok (analyze [0] 1) :=
  ⟨(empty_range_reported (some 100) none [Entry.ts 0] [] 0 (by norm_num [processLines, beforeStart])).1 rfl,
   (empty_range_reported none none [Entry.ts 0] [0] 1 rfl).2 (List.cons_ne_nil _ _)⟩

/-- C10: the `[start, end]` filter of lines 52–59 is closed at both ends: an
entry whose timestamp satisfies `start ≤ t ≤ end` is appended to the sequence
and counted, and only timestamps strictly before `start` or strictly after
`end` are excluded. -/
theorem range_filter_inclusive (s e t : ℚ) (rest : List Entry) :
    (s ≤ t → t ≤ e →
      processLines (some s) (some e) (Entry.ts t :: rest)
        = (processLines (some s) (some e) rest).map (fun p => (t :: p.1, p.2 + 1)))
    ∧ ((t < s ∨ e < t) →
      processLines (some s) (some e) (Entry.ts t :: rest)
        = processLines (some s) (some e) rest) := by
  constructor
  · intro h1 h2
    rw [processLines]
    simp [beforeStart, afterEnd, not_lt.mpr h1, not_lt.mpr h2]
  · rintro (h | h)
    · rw [processLines]
      simp [beforeStart, h]
    · rw [processLines]
      by_cases h1 : t < s <;> simp [beforeStart, afterEnd, h, h1]

/-- Witness for C10: a timestamp equal to the start bound and one equal to
the end bound are both accepted; one strictly after the end bound is
dropped. -/
theorem range_filter_inclusive_witness :
    processLines (some 3) (some 7) [Entry.ts 3]
      = (processLines (some 3) (some 7) []).map (fun p => ((3 : ℚ) :: p.1, p.2 + 1))
    ∧ processLines (some 3) (some 7) [Entry.ts 7]
      = (processLines (some 3) (some 7) []).map (fun p => ((7 : ℚ) :: p.1, p.2 + 1))
    ∧ processLines (some 3) (some 7) [Entry.ts 8] = processLines (some 3) (some 7) [] :=
  ⟨(range_filter_inclusive 3 7 3 []).1 (by norm_num) (by norm_num),
   (range_filter_inclusive 3 7 7 []).1 (by norm_num) (by norm_num),
   (range_filter_inclusive 3 7 8 []).2 (Or.inr (by norm_num))⟩

/-! ### Uncaught `ValueError` on malformed timestamps (lines 47–61, 126–148) -/

/-- C1: evaluation at the failing input.  A line whose JSON parses but whose
timestamp string does not (`Entry.badTs`, e.g. `{"timestamp":"not-a-date"}`)
aborts the whole analysis with an uncaught `ValueError` — the following line
is never processed — whereas a line that fails JSON decoding is skipped and
leaves `total_events` unaffected, as the claim describes. -/
theorem bad_timestamp_aborts_analysis :
    analyze_session_file none none [Entry.badTs, Entry.ts 0] = AnalysisResult.valueError
    ∧ mainExitCode none none [Entry.badTs, Entry.ts 0] = 1
    ∧ processLines none none [Entry.badJson, Entry.ts 0] = Except.ok ([(0 : ℚ)], 1) :=
  ⟨rfl, rfl, rfl⟩

/-- C8: evaluation at the failing input.  A candidate session file whose
first record carries an unparseable timestamp string (`RecParse.badTs`)
aborts the whole search with an uncaught `ValueError`, even though a later
candidate matches; candidates whose first record fails JSON decoding or
lacks the `timestamp` key are skipped and the search continues to the
matching file, as the claim describes. -/
theorem bad_timestamp_aborts_search :
    find_session_file 5 [Candidate.withRecords RecParse.badTs (RecParse.ok 10),
        Candidate.withRecords (RecParse.ok 0) (RecParse.ok 10)] = FindResult.valueError
    ∧ find_session_file 5 [Candidate.withRecords RecParse.decodeErr (RecParse.ok 10),
        Candidate.withRecords (RecParse.ok 0) (RecParse.ok 10)] = FindResult.found 1
    ∧ find_session_file 5 [Candidate.withRecords RecParse.keyErr (RecParse.ok 10),
        Candidate.withRecords (RecParse.ok 0) (RecParse.ok 10)] = FindResult.found 1
    ∧ find_session_file 5 [Candidate.withRecords (RecParse.ok 0) RecParse.badTs,
        Candidate.withRecords (RecParse.ok 0) (RecParse.ok 10)] = FindResult.valueError := by
  refine ⟨rfl, ?_, ?_, ?_⟩ <;>
    norm_num [find_session_file, findFrom]

/-! ### The hourly activity mapping (lines 84–87, 112–113) -/

theorem hourOf_le (t : ℚ) : hourOf t ≤ 23 := by
  unfold hourOf
  have h1 : 0 ≤ ⌊t⌋ % 86400 := Int.emod_nonneg _ (by norm_num)
  have h2 : ⌊t⌋ % 86400 < 86400 := Int.emod_lt_of_pos _ (by norm_num)
  omega

theorem bump_keys (h : ℕ) :
    ∀ l : List (ℕ × ℕ), (bump h l).map Prod.fst =
      if h ∈ l.map Prod.fst then l.map Prod.fst else l.map Prod.fst ++ [h]
  | [] => by simp [bump]
  | (k, v) :: rest => by
      by_cases hk : k = h
      · subst hk
        simp [bump]
      · have ih := bump_keys h rest
        simp only [bump, if_neg hk, List.map_cons, ih]
        by_cases hm : h ∈ rest.map Prod.fst
        · simp [hm, hk]
        · have hkh : ¬h = k := fun hh => hk hh.symm
          simp [hm, hkh]

theorem bump_keys_mem (h a : ℕ) (l : List (ℕ × ℕ)) :
    a ∈ (bump h l).map Prod.fst ↔ a ∈ l.map Prod.fst ∨ a = h := by
  rw [bump_keys]
  by_cases hm : h ∈ l.map Prod.fst
  · simp only [if_pos hm]
    constructor
    · exact Or.inl
    · rintro (ha | rfl)
      · exact ha
      · exact hm
  · simp [if_neg hm]

theorem bump_keys_nodup (h : ℕ) (l : List (ℕ × ℕ))
    (hl : (l.map Prod.fst).Nodup) : ((bump h l).map Prod.fst).Nodup := by
  rw [bump_keys]
  by_cases hm : h ∈ l.map Prod.fst
  · rw [if_pos hm]
    exact hl
  · rw [if_neg hm]
    simp [List.nodup_append, hl, hm]

theorem bump_sum (h : ℕ) :
    ∀ l : List (ℕ × ℕ), ((bump h l).map Prod.snd).sum = ((l.map Prod.snd)).sum + 1
  | [] => by simp [bump]
  | (k, v) :: rest => by
      by_cases hk : k = h
      · simp [bump, hk]
        omega
      · have ih := bump_sum h rest
        simp only [bump, if_neg hk, List.map_cons, List.sum_cons, ih]
        omega

theorem bump_counts_pos (h : ℕ) :
    ∀ l : List (ℕ × ℕ), (∀ p ∈ l, 0 < p.2) → ∀ p ∈ bump h l, 0 < p.2
  | [] => by
      intro _ p hp
      simp only [bump, List.mem_singleton] at hp
      subst hp
      exact Nat.one_pos
  | (k, v) :: rest => by
      intro hl p hp
      by_cases hk : k = h
      · simp only [bump, if_pos hk, List.mem_cons] at hp
        rcases hp with rfl | hp
        · exact Nat.succ_pos v
        · exact hl p (List.mem_cons_of_mem _ hp)
      · simp only [bump, if_neg hk, List.mem_cons] at hp
        rcases hp with rfl | hp
        · exact hl (k, v) (List.mem_cons_self _ _)
        · exact bump_counts_pos h rest (fun q hq => hl q (List.mem_cons_of_mem _ hq)) p hp

theorem foldl_bump_keys_nodup :
    ∀ (ts : List ℚ) (acc : List (ℕ × ℕ)), (acc.map Prod.fst).Nodup →
      ((ts.foldl (fun a t => bump (hourOf t) a) acc).map Prod.fst).Nodup
  | [], _ => fun h => h
  | t :: rest, acc => fun h =>
      foldl_bump_keys_nodup rest (bump (hourOf t) acc) (bump_keys_nodup _ _ h)

theorem foldl_bump_mem :
    ∀ (ts : List ℚ) (acc : List (ℕ × ℕ)) (a : ℕ),
      (a ∈ (ts.foldl (fun ac t => bump (hourOf t) ac) acc).map Prod.fst ↔
        a ∈ acc.map Prod.fst ∨ a ∈ ts.map hourOf)
  | [], acc, a => by simp
  | t :: rest, acc, a => by
      have ih := foldl_bump_mem rest (bump (hourOf t) acc) a
      simp only [List.foldl_cons] at ih ⊢
      rw [ih, bump_keys_mem]
      simp [or_assoc]

theorem foldl_bump_sum :
    ∀ (ts : List ℚ) (acc : List (ℕ × ℕ)),
      ((ts.foldl (fun ac t => bump (hourOf t) ac) acc).map Prod.snd).sum
        = (acc.map Prod.snd).sum + ts.length
  | [], acc => by simp
  | t :: rest, acc => by
      have ih := foldl_bump_sum rest (bump (hourOf t) acc)
      simp only [List.foldl_cons, ih, bump_sum, List.length_cons]
      ring

theorem foldl_bump_counts_pos :
    ∀ (ts : List ℚ) (acc : List (ℕ × ℕ)), (∀ p ∈ acc, 0 < p.2) →
      ∀ p ∈ ts.foldl (fun ac t => bump (hourOf t) ac) acc, 0 < p.2
  | [], _ => fun h => h
  | t :: rest, acc => fun h =>
      foldl_bump_counts_pos rest (bump (hourOf t) acc) (bump_counts_pos _ _ h)

theorem hourlyActivity_keys_nodup (ts : List ℚ) :
    ((hourlyActivity ts).map Prod.fst).Nodup :=
  foldl_bump_keys_nodup ts [] (by simp)

theorem hourlyActivity_keys_mem (ts : List ℚ) (a : ℕ) :
    a ∈ (hourlyActivity ts).map Prod.fst ↔ a ∈ ts.map hourOf := by
  rw [hourlyActivity, foldl_bump_mem]
  simp

theorem hourlyActivity_sum (ts : List ℚ) :
    ((hourlyActivity ts).map Prod.snd).sum = ts.length := by
  rw [hourlyActivity, foldl_bump_sum]
  simp

theorem hourlyActivity_counts_pos (ts : List ℚ) :
    ∀ p ∈ hourlyActivity ts, 0 < p.2 :=
  foldl_bump_counts_pos ts [] (by simp)

theorem hourlyActivity_length (ts : List ℚ) :
    (hourlyActivity ts).length = (ts.map hourOf).dedup.length := by
  have hperm : ((hourlyActivity ts).map Prod.fst).Perm ((ts.map hourOf).dedup) := by
    rw [List.perm_ext_iff_of_nodup (hourlyActivity_keys_nodup ts) (List.nodup_dedup _)]
    intro a
    rw [hourlyActivity_keys_mem, List.mem_dedup]
  have := hperm.length_eq
  simpa using this

/-- C7: for a filtered sequence produced by the reading loop, the
`hourly_activity` mapping of the metrics has every key in `[0, 23]` with a
positive count, contains a key exactly when some event has that hour, is
ordered by strictly ascending hour key, and its counts sum to
`total_events`. -/
theorem hourly_activity_correct (sdt edt : Option ℚ) (lines : List Entry)
    (ts : List ℚ) (n : ℕ) (hp : processLines sdt edt lines = Except.ok (ts, n))
    (_hne : ts ≠ []) :
    (∀ p ∈ (analyze ts n).hourly_activity, p.1 ≤ 23 ∧ 0 < p.2)
    ∧ (∀ a : ℕ, a ∈ ((analyze ts n).hourly_activity).map Prod.fst ↔ a ∈ ts.map hourOf)
    ∧ List.Pairwise (fun a b : ℕ × ℕ => a.1 < b.1) (analyze ts n).hourly_activity
    ∧ (((analyze ts n).hourly_activity).map Prod.snd).sum = (analyze ts n).total_events := by
  have hfield : (analyze ts n).hourly_activity
      = List.insertionSort byHour (hourlyActivity ts) := by
    simp [analyze]
  have hperm : (List.insertionSort byHour (hourlyActivity ts)).Perm (hourlyActivity ts) :=
    List.perm_insertionSort byHour (hourlyActivity ts)
  refine ⟨?_, ?_, ?_, ?_⟩
  · intro p hp2
    rw [hfield] at hp2
    have hpm : p ∈ hourlyActivity ts := hperm.mem_iff.mp hp2
    constructor
    · have hk : p.1 ∈ (hourlyActivity ts).map Prod.fst := List.mem_map_of_mem Prod.fst hpm
      rw [hourlyActivity_keys_mem] at hk
      obtain ⟨t, _, ht⟩ := List.mem_map.mp hk
      rw [← ht]
      exact hourOf_le t
    · exact hourlyActivity_counts_pos ts p hpm
  · intro a
    rw [hfield, (hperm.map Prod.fst).mem_iff, hourlyActivity_keys_mem]
  · rw [hfield]
    have hsorted : List.Pairwise byHour (List.insertionSort byHour (hourlyActivity ts)) :=
      List.sorted_insertionSort byHour (hourlyActivity ts)
    have hnodup : ((List.insertionSort byHour (hourlyActivity ts)).map Prod.fst).Nodup :=
      ((hperm.map Prod.fst).nodup_iff).mpr (hourlyActivity_keys_nodup ts)
    have hne2 : List.Pairwise (fun a b : ℕ × ℕ => a.1 ≠ b.1)
        (List.insertionSort byHour (hourlyActivity ts)) := List.pairwise_map.mp hnodup
    exact (hsorted.and hne2).imp (fun h => lt_of_le_of_ne h.1 h.2)
  · rw [hfield, (hperm.map Prod.snd).sum_eq, hourlyActivity_sum]
    have htot : (analyze ts n).total_events = n := by simp [analyze]
    rw [htot, processLines_length sdt edt lines ts n hp]

/-- Witness for C7 at the single line with timestamp 0. -/
theorem hourly_activity_correct_witness :
    (∀ p ∈ (analyze [(0 : ℚ)] 1).hourly_activity, p.1 ≤ 23 ∧ 0 < p.2)
    ∧ (∀ a : ℕ, a ∈ ((analyze [(0 : ℚ)] 1).hourly_activity).map Prod.fst
        ↔ a ∈ [(0 : ℚ)].map hourOf)
    ∧ List.Pairwise (fun a b : ℕ × ℕ => a.1 < b.1) (analyze [(0 : ℚ)] 1).hourly_activity
    ∧ (((analyze [(0 : ℚ)] 1).hourly_activity).map Prod.snd).sum
        = (analyze [(0 : ℚ)] 1).total_events :=
  hourly_activity_correct none none [Entry.ts 0] [0] 1 rfl (List.cons_ne_nil _ _)

/-! ### Peak hours (line 113) -/

/-- Counterexample to C4 as stated: for the two instants `18000` (hour 5 of
day 0) and `97200` (hour 3 of day 1) the counts tie at 1, and `peak_hours`
lists hour 5 before hour 3 — the first-encountered order of the insertion-
ordered dict that line 113 actually sorts — not the ascending hour order of
the sorted `hourly_activity` mapping that the claim describes. -/
theorem peak_hours_counterexample :
    (analyze [(18000 : ℚ), 97200] 2).peak_hours = [(5, 1), (3, 1)]
    ∧ ¬ List.Pairwise (fun a b : ℕ × ℕ => b.2 < a.2 ∨ (a.2 = b.2 ∧ a.1 < b.1))
        (analyze [(18000 : ℚ), 97200] 2).peak_hours := by
  have h1 : (analyze [(18000 : ℚ), 97200] 2).peak_hours = [(5, 1), (3, 1)] := by decide
  refine ⟨h1, ?_⟩
  rw [h1]
  decide

/-- C4 amended: `peak_hours` is the take-3 prefix of the stable descending-
by-count sort of the insertion-ordered `hourly_activity` dict, so it has
length `min 3 (number of distinct hours)`, is weakly descending by count,
consists of pairs of the mapping, every pair left out has a count no larger
than any count kept, and equal-count pairs keep their first-occurrence
(insertion) order — not the ascending-hour order. -/
theorem peak_hours_amended (ts : List ℚ) (n : ℕ) (_hne : ts ≠ []) :
    (analyze ts n).peak_hours.length = min 3 ((ts.map hourOf).dedup.length)
    ∧ List.Pairwise byCountDesc (analyze ts n).peak_hours
    ∧ (∀ p ∈ (analyze ts n).peak_hours, p ∈ hourlyActivity ts)
    ∧ (∀ q ∈ hourlyActivity ts, q ∉ (analyze ts n).peak_hours →
        ∀ p ∈ (analyze ts n).peak_hours, q.2 ≤ p.2)
    ∧ (analyze ts n).peak_hours = (List.insertionSort byCountDesc (hourlyActivity ts)).take 3
    ∧ ∀ p q : ℕ × ℕ, [p, q].Sublist (hourlyActivity ts) → q.2 ≤ p.2 →
        [p, q].Sublist (List.insertionSort byCountDesc (hourlyActivity ts)) := by
  have hfield : (analyze ts n).peak_hours
      = (List.insertionSort byCountDesc (hourlyActivity ts)).take 3 := by
    simp [analyze]
  have hperm : (List.insertionSort byCountDesc (hourlyActivity ts)).Perm (hourlyActivity ts) :=
    List.perm_insertionSort byCountDesc (hourlyActivity ts)
  have hsorted : List.Pairwise byCountDesc (List.insertionSort byCountDesc (hourlyActivity ts)) :=
    List.sorted_insertionSort byCountDesc (hourlyActivity ts)
  refine ⟨?_, ?_, ?_, ?_, hfield, ?_⟩
  · rw [hfield, List.length_take, hperm.length_eq, hourlyActivity_length]
  · rw [hfield]
    exact List.Pairwise.sublist (List.take_sublist 3 _) hsorted
  · intro p hp
    rw [hfield] at hp
    exact hperm.mem_iff.mp ((List.take_sublist 3 _).subset hp)
  · intro q hq hqout p hp
    rw [hfield] at hqout hp
    have hqL : q ∈ List.insertionSort byCountDesc (hourlyActivity ts) := hperm.mem_iff.mpr hq
    rw [← List.take_append_drop 3 (List.insertionSort byCountDesc (hourlyActivity ts))]
      at hqL
    rcases List.mem_append.mp hqL with hqin | hqdrop
    · exact absurd hqin hqout
    · have hsplit : List.Pairwise byCountDesc
          (List.take 3 (List.insertionSort byCountDesc (hourlyActivity ts))
            ++ List.drop 3 (List.insertionSort byCountDesc (hourlyActivity ts))) := by
        rw [List.take_append_drop]
        exact hsorted
      exact (List.pairwise_append.mp hsplit).2.2 p hp q hqdrop
  · intro p q hsub hqp
    exact List.pair_sublist_insertionSort hqp hsub

/-- Witness for C4 (amended) at the two-instant sequence of the
counterexample. -/
theorem peak_hours_amended_witness :
    (analyze [(18000 : ℚ), 97200] 2).peak_hours.length
        = min 3 (([(18000 : ℚ), 97200].map hourOf).dedup.length)
    ∧ List.Pairwise byCountDesc (analyze [(18000 : ℚ), 97200] 2).peak_hours
    ∧ (∀ p ∈ (analyze [(18000 : ℚ), 97200] 2).peak_hours,
        p ∈ hourlyActivity [(18000 : ℚ), 97200])
    ∧ (∀ q ∈ hourlyActivity [(18000 : ℚ), 97200],
        q ∉ (analyze [(18000 : ℚ), 97200] 2).peak_hours →
        ∀ p ∈ (analyze [(18000 : ℚ), 97200] 2).peak_hours, q.2 ≤ p.2)
    ∧ (analyze [(18000 : ℚ), 97200] 2).peak_hours
        = (List.insertionSort byCountDesc (hourlyActivity [(18000 : ℚ), 97200])).take 3
    ∧ ∀ p q : ℕ × ℕ, [p, q].Sublist (hourlyActivity [(18000 : ℚ), 97200]) → q.2 ≤ p.2 →
        [p, q].Sublist (List.insertionSort byCountDesc (hourlyActivity [(18000 : ℚ), 97200])) :=
  peak_hours_amended [(18000 : ℚ), 97200] 2 (List.cons_ne_nil _ _)

/-! ### Guarded rate divisions (lines 90–92) -/

theorem headI_le_getLastI :
    ∀ ts : List ℚ, List.Chain' (· ≤ ·) ts → ts.headI ≤ ts.getLastI
  | [] => by simp [List.getLastI]
  | [_] => by simp [List.getLastI]
  | a :: b :: rest => by
      intro h
      rw [List.chain'_cons] at h
      have ih := headI_le_getLastI (b :: rest) h.2
      rw [getLastI_cons_cons]
      simp only [List.headI] at ih ⊢
      exact le_trans h.1 ih

/-- C9: the rate divisions are guarded.  `events_per_hour` and
`events_per_minute` are 0 when the total duration is 0 and otherwise equal
`total_events` divided by the duration in hours resp. minutes;
`active_events_per_minute` is 0 when the active minutes are ≤ 0 and
otherwise equals `total_events` divided by the active minutes. -/
theorem rates_guarded (ts : List ℚ) (n : ℕ) (_hne : ts ≠ [])
    (hmono : List.Chain' (· ≤ ·) ts) :
    ((analyze ts n).total_duration_hours = 0 →
      (analyze ts n).events_per_hour = 0 ∧ (analyze ts n).events_per_minute = 0)
    ∧ ((analyze ts n).total_duration_hours ≠ 0 →
      (analyze ts n).events_per_hour = (n : ℚ) / ((ts.getLastI - ts.headI) / 3600)
      ∧ (analyze ts n).events_per_minute = (n : ℚ) / ((ts.getLastI - ts.headI) / 60))
    ∧ ((analyze ts n).total_active_time_hours ≤ 0 →
      (analyze ts n).active_events_per_minute = 0)
    ∧ (0 < (analyze ts n).total_active_time_hours →
      (analyze ts n).active_events_per_minute
        = (n : ℚ) / ((ts.getLastI - ts.headI) / 60
            - ((calculate_gaps ts).filter (fun g => decide (30 ≤ g))).sum)) := by
  have hd : 0 ≤ ts.getLastI - ts.headI := sub_nonneg.mpr (headI_le_getLastI ts hmono)
  simp only [analyze]
  refine ⟨?_, ?_, ?_, ?_⟩
  · intro h0
    have : ts.getLastI - ts.headI = 0 := by linarith
    simp [this]
  · intro h0
    have hpos : 0 < ts.getLastI - ts.headI := by
      rcases lt_or_eq_of_le hd with h | h
      · exact h
      · exact absurd (by rw [← h]; norm_num) h0
    rw [if_pos hpos, if_pos hpos]
    exact ⟨rfl, rfl⟩
  · intro h0
    have hneg : ¬(0 < (ts.getLastI - ts.headI) / 60
        - ((calculate_gaps ts).filter (fun g => decide (30 ≤ g))).sum) := by
      intro hlt
      linarith
    rw [if_neg hneg]
  · intro h0
    have hpos : 0 < (ts.getLastI - ts.headI) / 60
        - ((calculate_gaps ts).filter (fun g => decide (30 ≤ g))).sum := by
      linarith
    rw [if_pos hpos]

/-- Witness for C9 at the sequence `[0, 60]` with 2 events. -/
theorem rates_guarded_witness :
    (((analyze [(0 : ℚ), 60] 2).total_duration_hours = 0 →
      (analyze [(0 : ℚ), 60] 2).events_per_hour = 0
        ∧ (analyze [(0 : ℚ), 60] 2).events_per_minute = 0)
    ∧ ((analyze [(0 : ℚ), 60] 2).total_duration_hours ≠ 0 →
      (analyze [(0 : ℚ), 60] 2).events_per_hour
          = (2 : ℚ) / (([(0 : ℚ), 60].getLastI - [(0 : ℚ), 60].headI) / 3600)
      ∧ (analyze [(0 : ℚ), 60] 2).events_per_minute
          = (2 : ℚ) / (([(0 : ℚ), 60].getLastI - [(0 : ℚ), 60].headI) / 60))
    ∧ ((analyze [(0 : ℚ), 60] 2).total_active_time_hours ≤ 0 →
      (analyze [(0 : ℚ), 60] 2).active_events_per_minute = 0)
    ∧ (0 < (analyze [(0 : ℚ), 60] 2).total_active_time_hours →
      (analyze [(0 : ℚ), 60] 2).active_events_per_minute
        = (2 : ℚ) / (([(0 : ℚ), 60].getLastI - [(0 : ℚ), 60].headI) / 60
            - ((calculate_gaps [(0 : ℚ), 60]).filter (fun g => decide (30 ≤ g))).sum))) :=
  rates_guarded [(0 : ℚ), 60] 2 (List.cons_ne_nil _ _) (by norm_num)
